import Mathlib

/-!
Verification model of the Music-Player core (src/src/audio/audio_output.cpp,
src/src/player/player.cpp, src/src/player/player.h).

Embedding conventions:
- `size_t` values are modelled as `Nat`; wrap-around subtraction is made
  explicit through `szsub`, which computes modulo `W = 2 ^ 64`.
- `x & (capacityFrames_ - 1)` is modelled verbatim as `x &&& (C - 1)`
  (definition `maskC`); for power-of-two capacities this is `x % C`.
- `float` samples are modelled as exact rationals; the sample computations
  the claims mention (multiply by volume, compare against 1 and -1, zero
  fill) are exact in both representations.
- The flat interleaved sample array `buffer_` (capacityFrames_ * channels_
  floats) is modelled at frame granularity: entry `p` of `buffer` is the
  frame stored at `buffer_[p * channels_ .. p * channels_ + channels_)`.
  Every access in the source touches index `p * channels_ + c` with
  `c < channels_`, so this regrouping is exact.
- External outcomes (PortAudio init result, presence of a default output
  device, stream open result, decoder open result, device start result)
  are passed as boolean parameters.
-/

namespace MusicPlayer

/-- The size_t modulus: 2 ^ 64. -/
def W : Nat := 2 ^ 64

/-- size_t subtraction `a - b` (wraps modulo `W`); callers always have `b ≤ W`. -/
def szsub (a b : Nat) : Nat := (a + W - b) % W

/-- The bitmask reduction `x & (C - 1)` used throughout audio_output.cpp. -/
def maskC (C x : Nat) : Nat := x &&& (C - 1)

/-- One frame: one sample per channel (source: `channels_` consecutive floats). -/
abbrev Frame := List ℚ

/-- State of `AudioOutput` (audio_output.h): ring storage plus the two
atomic indices, the dummy-mode flag and the volume scalar. -/
structure AudioOutput where
  capacityFrames : Nat
  channels : Nat
  sampleRate : Nat
  framesPerBuffer : Nat
  buffer : List Frame
  head : Nat
  tail : Nat
  dummyMode : Bool
  volume : ℚ
deriving DecidableEq

/-- `AudioOutput::nextPowerOfTwo` (audio_output.cpp lines 32-44).
The final `++v` cannot wrap for any attainable `desiredFrames` value
(`2 * sampleRate < 2 ^ 63`), so it is modelled as plain successor. -/
def nextPowerOfTwo (v : Nat) : Nat :=
  if v = 0 then 1
  else
    let v1 := v - 1
    let v2 := v1 ||| (v1 >>> 1)
    let v3 := v2 ||| (v2 >>> 2)
    let v4 := v3 ||| (v3 >>> 4)
    let v5 := v4 ||| (v4 >>> 8)
    let v6 := v5 ||| (v5 >>> 16)
    let v7 := v6 ||| (v6 >>> 32)
    v7 + 1

/-- `AudioOutput::available` (audio_output.cpp lines 246-250):
`(tail - head - 1) & (capacityFrames_ - 1)`. -/
def AudioOutput.available (st : AudioOutput) : Nat :=
  maskC st.capacityFrames (szsub (szsub st.tail st.head) 1)

/-- `AudioOutput::size` (audio_output.cpp lines 252-256):
`(head - tail) & (capacityFrames_ - 1)` (the occupied frame count). -/
def AudioOutput.size (st : AudioOutput) : Nat :=
  maskC st.capacityFrames (szsub st.head st.tail)

/-- The write loop of `AudioOutput::write` (audio_output.cpp lines 232-238):
stores the frames of `l` at ring slots `(head + f) & (C - 1)`, `f`
increasing. -/
def writeFrames (buf : List Frame) (C h : Nat) : List Frame → List Frame
  | [] => buf
  | x :: xs => writeFrames (buf.set (maskC C h) x) C (h + 1) xs

/-- The read loop of the PortAudio callback (audio_output.cpp lines 141-151),
without the per-sample volume/clamp step: collects `n` frames starting at
ring slot `tail & (C - 1)`. -/
def readFrames (buf : List Frame) (C t : Nat) : Nat → List Frame
  | 0 => []
  | n + 1 => buf.getD (maskC C t) [] :: readFrames buf C (t + 1) n

/-- `AudioOutput::write` (audio_output.cpp lines 217-244). In dummy mode the
data is discarded and `frameCount` is returned; otherwise up to
`min frameCount free` frames are copied in and `head_` is republished
masked. -/
def AudioOutput.write (st : AudioOutput) (frames : List Frame) (frameCount : Nat) :
    AudioOutput × Nat :=
  if st.dummyMode then (st, frameCount)
  else
    ({ st with
        buffer := writeFrames st.buffer st.capacityFrames st.head
          (frames.take (min frameCount st.available)),
        head := maskC st.capacityFrames ((st.head + min frameCount st.available) % W) },
      min frameCount st.available)

/-- The per-sample clamp of the callback (audio_output.cpp lines 146-148):
`if (sample > 1.0f) sample = 1.0f; else if (sample < -1.0f) sample = -1.0f;`. -/
def clampSample (x : ℚ) : ℚ :=
  if x > 1 then 1 else if x < -1 then -1 else x

/-- `framesToRead = min(framesPerBuffer, availableFrames)` of the callback
(audio_output.cpp line 137), where `availableFrames = (head - tail) & (C-1)`. -/
def AudioOutput.framesToRead (st : AudioOutput) (framesPerBuffer : Nat) : Nat :=
  min framesPerBuffer st.size

/-- The frames the callback reads from the ring on one invocation, before
volume scaling (audio_output.cpp lines 141-151). -/
def AudioOutput.consumedFrames (st : AudioOutput) (framesPerBuffer : Nat) : List Frame :=
  readFrames st.buffer st.capacityFrames st.tail (st.framesToRead framesPerBuffer)

/-- The PortAudio callback (audio_output.cpp lines 120-165): fills the output
buffer with `framesToRead` volume-scaled clamped frames followed by zero
silence frames, then republishes `tail_` masked. Returns the new state and
the produced output buffer. -/
def AudioOutput.callback (st : AudioOutput) (framesPerBuffer : Nat) :
    AudioOutput × List Frame :=
  ({ st with
      tail := maskC st.capacityFrames ((st.tail + st.framesToRead framesPerBuffer) % W) },
    (st.consumedFrames framesPerBuffer).map
        (fun fr => fr.map (fun s => clampSample (s * st.volume)))
      ++ List.replicate (framesPerBuffer - st.framesToRead framesPerBuffer)
          (List.replicate st.channels 0))

/-- `AudioOutput::setVolume` (audio_output.cpp lines 258-262): two clamping
ifs, then the store. -/
def AudioOutput.setVolume (st : AudioOutput) (volume : ℚ) : AudioOutput :=
  let v1 := if volume < 0 then (0 : ℚ) else volume
  let v2 := if v1 > 1 then (1 : ℚ) else v1
  { st with volume := v2 }

/-- `AudioOutput::init` (audio_output.cpp lines 71-176), composed with the
constructor (lines 49-59, which sets `volume_ = 1.0`). Allocates the
zeroed ring, resets the indices, then: PortAudio init failure aborts;
a missing default output device switches to dummy mode and succeeds early;
a stream-open failure aborts; otherwise the stream is configured. -/
def AudioOutput.init (sampleRate channels : Nat) (framesPerBuffer : Nat)
    (paOk deviceAvailable openStreamOk : Bool) : Option AudioOutput :=
  if paOk = false then none
  else if deviceAvailable = false then
    some { capacityFrames := nextPowerOfTwo (sampleRate * 2), channels := channels,
           sampleRate := sampleRate, framesPerBuffer := framesPerBuffer,
           buffer := List.replicate (nextPowerOfTwo (sampleRate * 2))
             (List.replicate channels 0),
           head := 0, tail := 0, dummyMode := true, volume := 1 }
  else if openStreamOk = false then none
  else
    some { capacityFrames := nextPowerOfTwo (sampleRate * 2), channels := channels,
           sampleRate := sampleRate, framesPerBuffer := framesPerBuffer,
           buffer := List.replicate (nextPowerOfTwo (sampleRate * 2))
             (List.replicate channels 0),
           head := 0, tail := 0, dummyMode := false, volume := 1 }

/-- A freshly initialized non-dummy ring of capacity `C` with `ch` channels,
as produced by a successful `init` (capacity abstracted). -/
def initialRing (C ch : Nat) : AudioOutput :=
  { capacityFrames := C, channels := ch, sampleRate := 0, framesPerBuffer := 0,
    buffer := List.replicate C (List.replicate ch 0),
    head := 0, tail := 0, dummyMode := false, volume := 1 }

/-- One producer/consumer event on the ring: a producer `AudioOutput::write`
of a batch of frames, or one device callback invocation requesting `n`
frames. -/
inductive RingOp where
  | write : List Frame → RingOp
  | consume : Nat → RingOp

/-- Ring state together with the history of successfully written frames and
of frames read (pre-volume) by the callback. -/
structure Trace where
  st : AudioOutput
  written : List Frame
  consumed : List Frame

/-- Effect of one event on the ring and the two histories. A write appends
the accepted prefix of the batch to `written`; a callback invocation
appends the frames it actually read to `consumed`. -/
def stepOp (t : Trace) : RingOp → Trace
  | .write fs =>
      { st := (t.st.write fs fs.length).1,
        written := t.written ++ fs.take (t.st.write fs fs.length).2,
        consumed := t.consumed }
  | .consume n =>
      { st := (t.st.callback n).1,
        written := t.written,
        consumed := t.consumed ++ t.st.consumedFrames n }

/-- Runs a sequence of ring events. -/
def runOps (t : Trace) : List RingOp → Trace
  | [] => t
  | op :: rest => runOps (stepOp t op) rest

/-- State of `Player` (player.h lines 66-87). `paused` and `finished` are
`Option Bool`: they are absent from the constructor initializer list
(player.cpp lines 27-32) and `none` models the never-written atomic.
`threadsSpawned` counts producer-thread launches and `deviceStarts` counts
`audioOut_->start()` invocations (instrumentation of those effects). -/
structure Player where
  decoder : Bool
  audioOut : Option AudioOutput
  playing : Bool
  stopRequested : Bool
  paused : Option Bool
  finished : Option Bool
  threadsSpawned : Nat
  deviceStarts : Nat
deriving DecidableEq

/-- `Player::Player` (player.cpp lines 27-32): initializes `decoder_`,
`audioOut_`, `playing_`, `stopRequested_`; `paused_` and `finished_` are
left uninitialized. -/
def Player.mk0 : Player :=
  { decoder := false, audioOut := none, playing := false, stopRequested := false,
    paused := none, finished := none, threadsSpawned := 0, deviceStarts := 0 }

/-- `Player::stop` (player.cpp lines 102-144). Not playing: releases decoder
and audio output. Playing: joins the producer, drains best-effort, stops the
device, releases the decoder, clears the flags — but does NOT release
`audioOut_` (no `audioOut_.reset()` on this branch). -/
def Player.stop (p : Player) : Player :=
  if p.playing = false then { p with decoder := false, audioOut := none }
  else { p with decoder := false, playing := false, stopRequested := false }

/-- `Player::load` (player.cpp lines 38-72): implicit `stop()`, then decoder
open (outcome `openOk`), then `AudioOutput::init(sr, ch, 512)`. On decoder
failure the decoder is released; on init failure both the new audio output
and the decoder are released. -/
def Player.load (p : Player) (openOk : Bool) (sr ch : Nat)
    (paOk devAvail streamOk : Bool) : Player × Bool :=
  if openOk = false then ({ p.stop with decoder := false }, false)
  else
    match AudioOutput.init sr ch 512 paOk devAvail streamOk with
    | none => ({ p.stop with decoder := false, audioOut := none }, false)
    | some ao => ({ p.stop with decoder := true, audioOut := some ao }, true)

/-- `Player::play` (player.cpp lines 74-100). No decoder or output: fails.
Already playing: logs a warning and returns `true` immediately. Otherwise
starts the device (outcome `startOk`), resets the flags, spawns the
producer thread and returns `true`. -/
def Player.play (p : Player) (startOk : Bool) : Player × Bool :=
  if !p.decoder || p.audioOut.isNone then (p, false)
  else if p.playing then (p, true)
  else
    if startOk = false then ({ p with deviceStarts := p.deviceStarts + 1 }, false)
    else ({ p with deviceStarts := p.deviceStarts + 1,
                   stopRequested := false, playing := true,
                   threadsSpawned := p.threadsSpawned + 1 }, true)

/-- Regrouping of an interleaved sample batch into frames of `channels`
samples (`totalFrames = nSamples / channels`, player.cpp line 180). -/
def chunkFrames (channels : Nat) (samples : List ℚ) : List Frame :=
  (List.range (samples.length / channels)).map
    (fun f => (samples.drop (f * channels)).take channels)

/-- The inner retry loop of `Player::decodeThreadFunc` (player.cpp lines
185-193): writes the remaining frames, sleeping and retrying on a full
buffer. `stopReq` is the value of `stopRequested_` (set only by another
thread, hence constant here); `fuel` bounds the number of observed loop
iterations. -/
def writeRetry (fuel : Nat) (ao : AudioOutput) (frames : List Frame) : AudioOutput :=
  match fuel with
  | 0 => ao
  | fuel + 1 =>
    if frames.isEmpty then ao
    else
      let r := ao.write frames frames.length
      writeRetry fuel r.1 (frames.drop r.2)

/-- The outer loop of `Player::decodeThreadFunc` (player.cpp lines 162-194):
per decoded batch, exit on stop request or on an empty batch (EOF),
otherwise convert int16 samples to normalized rationals
(`intBuf[i] / 32768.0f`) and push the frames through the retry loop. -/
def decodeLoop (fuel : Nat) (stopReq : Bool) (channels : Nat)
    (ao : AudioOutput) : List (List Int) → AudioOutput
  | [] => ao
  | b :: rest =>
    if stopReq then ao
    else if b.length = 0 then ao
    else
      decodeLoop fuel stopReq channels
        (writeRetry fuel ao (chunkFrames channels (b.map (fun s => (s : ℚ) / 32768)))) rest

/-- `Player::decodeThreadFunc` (player.cpp lines 154-198) at `Player`
granularity: it only reads `stopRequested_` and writes into the ring; no
other `Player` field is touched. `batches` are the successive
`decoder_->decode` results (sample counts are list lengths). -/
def Player.decodeThreadFunc (p : Player) (batches : List (List Int)) (fuel : Nat) : Player :=
  match p.audioOut with
  | none => p
  | some ao => { p with audioOut := some (decodeLoop fuel p.stopRequested ao.channels ao batches) }

/-- One `Player` lifecycle event, with the outcomes of the external calls it
makes as parameters. -/
inductive PlayerOp where
  | load (openOk : Bool) (sr ch : Nat) (paOk devAvail streamOk : Bool)
  | play (startOk : Bool)
  | stop
  | decodeRun (batches : List (List Int)) (fuel : Nat)

/-- State reached after one `Player` event. -/
def playerStep (p : Player) : PlayerOp → Player
  | .load o sr ch a b c => (p.load o sr ch a b c).1
  | .play s => (p.play s).1
  | .stop => p.stop
  | .decodeRun bs fuel => p.decodeThreadFunc bs fuel

/-- Runs a sequence of `Player` events. -/
def runPlayer (p : Player) : List PlayerOp → Player
  | [] => p
  | op :: rest => runPlayer (playerStep p op) rest

/-- Well-formedness of a ring state: power-of-two capacity (as `init`
guarantees), non-dummy mode, reduced indices, allocated storage. -/
def RingBounds (k : Nat) (st : AudioOutput) : Prop :=
  st.capacityFrames = 2 ^ k ∧ st.dummyMode = false ∧
  st.head < 2 ^ k ∧ st.tail < 2 ^ k ∧ st.buffer.length = 2 ^ k

/-- The occupied frames of the ring, oldest first. -/
def queueFrames (st : AudioOutput) : List Frame :=
  readFrames st.buffer st.capacityFrames st.tail st.size

/-- Trace invariant: the ring is well formed and the frames read so far
followed by the frames still queued are exactly the frames accepted by
`write`, in order. -/
def TraceInv (k : Nat) (t : Trace) : Prop :=
  RingBounds k t.st ∧ t.consumed ++ queueFrames t.st = t.written

/-- The spec scenario state: capacity 8, one channel, frames [1,2,3,4,5]
written. -/
def st5 : AudioOutput := ((initialRing 8 1).write [[1],[2],[3],[4],[5]] 5).1

/-- A loaded-and-playing `Player`, as reached by a successful load followed
by a successful play. -/
def pPlaying : Player :=
  { decoder := true, audioOut := some (initialRing 8 1), playing := true,
    stopRequested := false, paused := none, finished := none,
    threadsSpawned := 1, deviceStarts := 1 }

/-- A ring in dummy (null-device) mode. -/
def dummyRing : AudioOutput := { initialRing 8 1 with dummyMode := true }

/-! ### Arithmetic of the masked size_t index computations -/

theorem maskC_two_pow (k x : Nat) : maskC (2 ^ k) x = x % 2 ^ k := by
  unfold maskC
  exact Nat.and_pow_two_sub_one_eq_mod x k

theorem maskC_le (C x : Nat) : maskC C x ≤ C - 1 :=
  Nat.and_le_right

theorem maskC_lt {C : Nat} (hC : 0 < C) (x : Nat) : maskC C x < C :=
  lt_of_le_of_lt (maskC_le C x) (by omega)

theorem two_pow_le_W {k : Nat} (hk : k ≤ 64) : 2 ^ k ≤ W :=
  Nat.pow_le_pow_right (by omega) hk

theorem mod_W_mod {k : Nat} (hk : k ≤ 64) (x : Nat) : x % W % 2 ^ k = x % 2 ^ k :=
  Nat.mod_mod_of_dvd x (pow_dvd_pow 2 hk)

theorem add_W_sub_mod {k : Nat} (hk : k ≤ 64) (x : Nat) :
    (x + (W - 2 ^ k)) % 2 ^ k = x % 2 ^ k := by
  obtain ⟨m, hm⟩ : 2 ^ k ∣ (W - 2 ^ k) := Nat.dvd_sub' (pow_dvd_pow 2 hk) dvd_rfl
  rw [hm]
  exact Nat.add_mul_mod_self_left x (2 ^ k) m

theorem szsub_mod {k : Nat} (hk : k ≤ 64) (a b : Nat) (hb : b ≤ 2 ^ k) :
    szsub a b % 2 ^ k = (a + 2 ^ k - b) % 2 ^ k := by
  have hW : 2 ^ k ≤ W := two_pow_le_W hk
  unfold szsub
  rw [mod_W_mod hk]
  have h1 : a + W - b = (a + 2 ^ k - b) + (W - 2 ^ k) := by omega
  rw [h1, add_W_sub_mod hk]

theorem sub_mod_cancel {C : Nat} (hC : 0 < C) {x d y : Nat} (hx : x < C) (hd : d < C)
    (hcong : (x + d) % C = y % C) : (y + C - x) % C = d := by
  have h1 : (y + C - x) + x = y + C := by omega
  have h2 : ((y + C - x) % C + x) % C = (x + d) % C := by
    rw [Nat.mod_add_mod, h1, Nat.add_mod_right, ← hcong]
  have h3 : ((y + C - x) % C + x) % C = (d + x) % C := by
    rw [h2, Nat.add_comm x d]
  have h4 : (y + C - x) % C ≡ d [MOD C] :=
    Nat.ModEq.add_right_cancel' x h3
  have h5 : (y + C - x) % C % C = d % C := h4
  rw [Nat.mod_mod_of_dvd _ dvd_rfl, Nat.mod_eq_of_lt hd] at h5
  exact h5

theorem mod_add_ne {C : Nat} (hC : 0 < C) (t : Nat) {i j : Nat} (hi : i < C) (hj : j < C)
    (hne : i ≠ j) : (t + i) % C ≠ (t + j) % C := by
  intro h
  have h2 : i ≡ j [MOD C] := Nat.ModEq.add_left_cancel' t h
  have h3 : i % C = j % C := h2
  rw [Nat.mod_eq_of_lt hi, Nat.mod_eq_of_lt hj] at h3
  exact hne h3

/-! ### The normalized occupied / free formulas -/

theorem size_eq {k : Nat} (hk : k ≤ 64) (st : AudioOutput)
    (hC : st.capacityFrames = 2 ^ k) (ht : st.tail ≤ 2 ^ k) :
    st.size = (st.head + 2 ^ k - st.tail) % 2 ^ k := by
  unfold AudioOutput.size
  rw [hC, maskC_two_pow, szsub_mod hk _ _ ht]

theorem avail_eq {k : Nat} (hk : k ≤ 64) (st : AudioOutput)
    (hC : st.capacityFrames = 2 ^ k) (hh : st.head ≤ 2 ^ k) :
    st.available = (st.tail + 2 * 2 ^ k - st.head - 1) % 2 ^ k := by
  have h1 : (1 : Nat) ≤ 2 ^ k := Nat.one_le_two_pow
  unfold AudioOutput.available
  rw [hC, maskC_two_pow, szsub_mod hk _ _ h1]
  have h2 : szsub st.tail st.head + 2 ^ k - 1 = szsub st.tail st.head + (2 ^ k - 1) := by
    omega
  rw [h2, ← Nat.mod_add_mod, szsub_mod hk _ _ hh, Nat.mod_add_mod]
  congr 1
  omega

theorem size_add_avail {k : Nat} (hk : k ≤ 64) (st : AudioOutput)
    (hC : st.capacityFrames = 2 ^ k) (hh : st.head < 2 ^ k) (ht : st.tail < 2 ^ k) :
    st.size + st.available = 2 ^ k - 1 := by
  have hCpos : 0 < 2 ^ k := Nat.pos_pow_of_pos k (by omega)
  rw [size_eq hk st hC (le_of_lt ht), avail_eq hk st hC (le_of_lt hh)]
  set C := 2 ^ k with hCdef
  set a := st.head + C - st.tail with ha
  set b := st.tail + 2 * C - st.head - 1 with hb
  have hab : a + b = 3 * C - 1 := by omega
  have hs : (a % C + b % C) % C = C - 1 := by
    rw [Nat.mod_add_mod, Nat.add_comm a (b % C), Nat.mod_add_mod, Nat.add_comm b a, hab]
    have h31 : 3 * C - 1 = (C - 1) + C * 2 := by omega
    rw [h31, Nat.add_mul_mod_self_left, Nat.mod_eq_of_lt (by omega)]
  have hal : a % C < C := Nat.mod_lt _ hCpos
  have hbl : b % C < C := Nat.mod_lt _ hCpos
  rcases Nat.lt_or_ge (a % C + b % C) C with h | h
  · rw [Nat.mod_eq_of_lt h] at hs
    exact hs
  · have h2 : a % C + b % C - C < C := by omega
    rw [Nat.mod_eq_sub_mod h, Nat.mod_eq_of_lt h2] at hs
    omega

theorem tail_add_size {k : Nat} (hk : k ≤ 64) (st : AudioOutput)
    (hC : st.capacityFrames = 2 ^ k) (hh : st.head < 2 ^ k) (ht : st.tail < 2 ^ k) :
    (st.tail + st.size) % 2 ^ k = st.head := by
  rw [size_eq hk st hC (le_of_lt ht), Nat.add_comm st.tail _, Nat.mod_add_mod]
  have h1 : st.head + 2 ^ k - st.tail + st.tail = st.head + 2 ^ k := by omega
  rw [h1, Nat.add_mod_right, Nat.mod_eq_of_lt hh]

/-! ### Ring storage lemmas -/

theorem getD_set_ne (l : List Frame) (i j : Nat) (a : Frame) (h : i ≠ j) :
    (l.set i a).getD j [] = l.getD j [] := by
  rw [List.getD_eq_getElem?_getD, List.getD_eq_getElem?_getD, List.getElem?_set_ne h]

theorem getD_set_self (l : List Frame) (i : Nat) (a : Frame) (h : i < l.length) :
    (l.set i a).getD i [] = a := by
  rw [List.getD_eq_getElem?_getD, List.getElem?_set_eq_of_lt a h]
  rfl

theorem writeFrames_length (l : List Frame) : ∀ (buf : List Frame) (C h : Nat),
    (writeFrames buf C h l).length = buf.length := by
  induction l with
  | nil => intro buf C h; rfl
  | cons x xs ih =>
    intro buf C h
    simp only [writeFrames]
    rw [ih, List.length_set]

theorem writeFrames_getD_miss (l : List Frame) : ∀ (buf : List Frame) (C h q : Nat),
    (∀ j, j < l.length → maskC C (h + j) ≠ q) →
    (writeFrames buf C h l).getD q [] = buf.getD q [] := by
  induction l with
  | nil => intro buf C h q _; rfl
  | cons x xs ih =>
    intro buf C h q hmiss
    simp only [writeFrames]
    rw [ih (buf.set (maskC C h) x) C (h + 1) q ?_]
    · refine getD_set_ne buf (maskC C h) q x ?_
      have h0 := hmiss 0 (by simp)
      simpa using h0
    · intro j hj
      have := hmiss (j + 1) (by simp; omega)
      have harr : h + 1 + j = h + (j + 1) := by omega
      rw [harr]
      exact this

theorem readFrames_length (n : Nat) : ∀ (buf : List Frame) (C t : Nat),
    (readFrames buf C t n).length = n := by
  induction n with
  | zero => intro buf C t; rfl
  | succ m ih =>
    intro buf C t
    simp only [readFrames, List.length_cons, ih]

theorem readFrames_split (n : Nat) : ∀ (buf : List Frame) (C t m : Nat),
    readFrames buf C t (n + m) = readFrames buf C t n ++ readFrames buf C (t + n) m := by
  induction n with
  | zero =>
    intro buf C t m
    simp [readFrames]
  | succ a ih =>
    intro buf C t m
    rw [Nat.succ_add]
    simp only [readFrames, List.cons_append]
    rw [ih buf C (t + 1) m]
    have harr : t + 1 + a = t + (a + 1) := by omega
    rw [harr]

theorem readFrames_congr {k : Nat} (n : Nat) : ∀ (buf : List Frame) (t u : Nat),
    t % 2 ^ k = u % 2 ^ k →
    readFrames buf (2 ^ k) t n = readFrames buf (2 ^ k) u n := by
  induction n with
  | zero => intro buf t u _; rfl
  | succ a ih =>
    intro buf t u h
    simp only [readFrames]
    rw [maskC_two_pow, maskC_two_pow, h, ih buf (t + 1) (u + 1) (Nat.ModEq.add_right 1 h)]

theorem readFrames_write_miss (n : Nat) : ∀ (buf l : List Frame) (C t h : Nat),
    (∀ i, i < n → ∀ j, j < l.length → maskC C (t + i) ≠ maskC C (h + j)) →
    readFrames (writeFrames buf C h l) C t n = readFrames buf C t n := by
  induction n with
  | zero => intro buf l C t h _; rfl
  | succ a ih =>
    intro buf l C t h hmiss
    simp only [readFrames]
    rw [writeFrames_getD_miss l buf C h (maskC C t) ?_, ih buf l C (t + 1) h ?_]
    · intro i hi j hj
      have harr : t + 1 + i = t + (i + 1) := by omega
      rw [harr]
      exact hmiss (i + 1) (by omega) j hj
    · intro j hj
      have h0 := hmiss 0 (by omega) j hj
      rw [Nat.add_zero] at h0
      exact fun he => h0 he.symm

theorem readFrames_writeFrames (l : List Frame) : ∀ (buf : List Frame) (k h : Nat),
    buf.length = 2 ^ k → l.length ≤ 2 ^ k →
    readFrames (writeFrames buf (2 ^ k) h l) (2 ^ k) h l.length = l := by
  induction l with
  | nil => intro buf k h _ _; rfl
  | cons x xs ih =>
    intro buf k h hlen hle
    have hCpos : 0 < 2 ^ k := Nat.pos_pow_of_pos k (by omega)
    simp only [writeFrames, List.length_cons, readFrames]
    have hxs : xs.length + 1 ≤ 2 ^ k := by simpa using hle
    refine List.cons_eq_cons.mpr ⟨?_, ?_⟩
    case' refine_1 =>
      rw [writeFrames_getD_miss xs (buf.set (maskC (2 ^ k) h) x) (2 ^ k) (h + 1)
        (maskC (2 ^ k) h) ?_]
      · exact getD_set_self buf (maskC (2 ^ k) h) x (by rw [hlen]; exact maskC_lt hCpos h)
      · intro j hj heq
        rw [maskC_two_pow, maskC_two_pow] at heq
        have h2 : h + (1 + j) ≡ h + 0 [MOD 2 ^ k] := by
          have harr : h + 1 + j = h + (1 + j) := by omega
          rw [harr] at heq
          simpa [Nat.ModEq] using heq
        have h3 : (1 + j) % 2 ^ k = 0 % 2 ^ k := Nat.ModEq.add_left_cancel' h h2
        have h4 : 2 ^ k ∣ (1 + j) := (Nat.modEq_zero_iff_dvd.mp h3)
        have h5 : 2 ^ k ≤ 1 + j := Nat.le_of_dvd (by omega) h4
        omega
    case' refine_2 =>
      exact ih (buf.set (maskC (2 ^ k) h) x) k (h + 1)
        (by rw [List.length_set, hlen]) (by omega)

/-! ### The ring buffer invariant and its preservation -/

theorem write_eq (st : AudioOutput) (fs : List Frame) (n : Nat)
    (hd : st.dummyMode = false) :
    st.write fs n =
      ({ st with
          buffer := writeFrames st.buffer st.capacityFrames st.head
            (fs.take (min n st.available)),
          head := maskC st.capacityFrames ((st.head + min n st.available) % W) },
        min n st.available) := by
  unfold AudioOutput.write
  rw [hd]
  simp

theorem size_lt (st : AudioOutput) (hC : 0 < st.capacityFrames) :
    st.size < st.capacityFrames :=
  maskC_lt hC _

theorem avail_lt (st : AudioOutput) (hC : 0 < st.capacityFrames) :
    st.available < st.capacityFrames :=
  maskC_lt hC _

theorem write_step {k : Nat} (hk : k ≤ 64) (st : AudioOutput) (fs : List Frame) (n : Nat)
    (hb : RingBounds k st) (hn : n ≤ fs.length) :
    RingBounds k (st.write fs n).1 ∧
    queueFrames (st.write fs n).1 = queueFrames st ++ fs.take (st.write fs n).2 ∧
    (st.write fs n).1.size = st.size + (st.write fs n).2 ∧
    (st.write fs n).1.tail = st.tail ∧
    (st.write fs n).2 = min n st.available := by
  obtain ⟨hC, hd, hh, ht, hlen⟩ := hb
  have hCpos : 0 < 2 ^ k := Nat.pos_pow_of_pos k (by omega)
  have hsum : st.size + st.available = 2 ^ k - 1 := size_add_avail hk st hC hh ht
  have htas : (st.tail + st.size) % 2 ^ k = st.head := tail_add_size hk st hC hh ht
  rw [write_eq st fs n hd]
  set tw := min n st.available with htwdef
  have htw1 : tw ≤ st.available := Nat.min_le_right n st.available
  have htw2 : tw ≤ n := Nat.min_le_left n st.available
  have hst : st.size + tw ≤ 2 ^ k - 1 := by omega
  have htklen : (fs.take tw).length = tw := by
    rw [List.length_take]
    omega
  have hhead' : maskC st.capacityFrames ((st.head + tw) % W) = (st.head + tw) % 2 ^ k := by
    rw [hC, maskC_two_pow, mod_W_mod hk]
  have hh' : (st.head + tw) % 2 ^ k < 2 ^ k := Nat.mod_lt _ hCpos
  have hlen' :
      (writeFrames st.buffer st.capacityFrames st.head (fs.take tw)).length = 2 ^ k := by
    rw [writeFrames_length, hlen]
  have hb' : RingBounds k { st with
      buffer := writeFrames st.buffer st.capacityFrames st.head (fs.take tw),
      head := maskC st.capacityFrames ((st.head + tw) % W) } :=
    ⟨hC, hd, by rw [hhead']; exact hh', ht, hlen'⟩
  have hcong : (st.tail + (st.size + tw)) % 2 ^ k = ((st.head + tw) % 2 ^ k) % 2 ^ k := by
    rw [Nat.mod_mod_of_dvd _ dvd_rfl]
    have h3 : st.tail + (st.size + tw) = st.tail + st.size + tw := by omega
    rw [h3, ← Nat.mod_add_mod, htas]
  have hsize' : ({ st with
      buffer := writeFrames st.buffer st.capacityFrames st.head (fs.take tw),
      head := maskC st.capacityFrames ((st.head + tw) % W) } : AudioOutput).size
      = st.size + tw := by
    have h1 := size_eq hk ({ st with
      buffer := writeFrames st.buffer st.capacityFrames st.head (fs.take tw),
      head := maskC st.capacityFrames ((st.head + tw) % W) } : AudioOutput) hC
      (le_of_lt ht)
    rw [h1]
    show (maskC st.capacityFrames ((st.head + tw) % W) + 2 ^ k - st.tail) % 2 ^ k
      = st.size + tw
    rw [hhead']
    exact sub_mod_cancel hCpos ht (by omega) hcong
  have hmiss1 : ∀ i, i < st.size → ∀ j, j < (fs.take tw).length →
      maskC st.capacityFrames (st.tail + i) ≠ maskC st.capacityFrames (st.head + j) := by
    intro i hi j hj
    rw [hC, maskC_two_pow, maskC_two_pow]
    have hj' : j < tw := by omega
    have hhj : (st.head + j) % 2 ^ k = (st.tail + (st.size + j)) % 2 ^ k := by
      have h2 : (st.tail + st.size + j) % 2 ^ k = (st.head + j) % 2 ^ k := by
        rw [← Nat.mod_add_mod, htas]
      have h3 : st.tail + (st.size + j) = st.tail + st.size + j := by omega
      rw [h3, h2]
    rw [hhj]
    exact mod_add_ne hCpos st.tail (by omega) (by omega) (by omega)
  have hq1 : readFrames
      (writeFrames st.buffer st.capacityFrames st.head (fs.take tw))
      st.capacityFrames st.tail st.size
      = readFrames st.buffer st.capacityFrames st.tail st.size :=
    readFrames_write_miss st.size st.buffer (fs.take tw) st.capacityFrames st.tail st.head
      hmiss1
  have hcong2 : (st.tail + st.size) % 2 ^ k = st.head % 2 ^ k := by
    rw [htas, Nat.mod_eq_of_lt hh]
  have hq2 : readFrames
      (writeFrames st.buffer st.capacityFrames st.head (fs.take tw))
      st.capacityFrames (st.tail + st.size) tw
      = fs.take tw := by
    have hrw := readFrames_writeFrames (fs.take tw) st.buffer k st.head hlen
      (by rw [htklen]; omega)
    rw [htklen] at hrw
    rw [hC, readFrames_congr tw _ (st.tail + st.size) st.head hcong2]
    exact hrw
  refine ⟨hb', ?_, hsize', rfl, rfl⟩
  show readFrames (writeFrames st.buffer st.capacityFrames st.head (fs.take tw))
      st.capacityFrames st.tail
      (({ st with
          buffer := writeFrames st.buffer st.capacityFrames st.head (fs.take tw),
          head := maskC st.capacityFrames ((st.head + tw) % W) } : AudioOutput).size)
    = queueFrames st ++ fs.take tw
  rw [hsize', readFrames_split, hq1, hq2]
  rfl

theorem callback_fst (st : AudioOutput) (n : Nat) :
    (st.callback n).1 =
      { st with tail := maskC st.capacityFrames ((st.tail + st.framesToRead n) % W) } :=
  rfl

theorem consume_step {k : Nat} (hk : k ≤ 64) (st : AudioOutput) (n : Nat)
    (hb : RingBounds k st) :
    RingBounds k (st.callback n).1 ∧
    queueFrames st = st.consumedFrames n ++ queueFrames (st.callback n).1 ∧
    (st.callback n).1.size = st.size - st.framesToRead n ∧
    (st.callback n).1.head = st.head ∧
    (st.callback n).1.buffer = st.buffer := by
  obtain ⟨hC, hd, hh, ht, hlen⟩ := hb
  have hCpos : 0 < 2 ^ k := Nat.pos_pow_of_pos k (by omega)
  have htas : (st.tail + st.size) % 2 ^ k = st.head := tail_add_size hk st hC hh ht
  have hsizelt : st.size < 2 ^ k := by
    have := size_lt st (by rw [hC]; exact hCpos)
    rw [hC] at this
    exact this
  rw [callback_fst]
  set r := st.framesToRead n with hrdef
  have hrsize : r ≤ st.size := Nat.min_le_right n st.size
  have htail' : maskC st.capacityFrames ((st.tail + r) % W) = (st.tail + r) % 2 ^ k := by
    rw [hC, maskC_two_pow, mod_W_mod hk]
  have ht2 : ({ st with
      tail := maskC st.capacityFrames ((st.tail + r) % W) } : AudioOutput).tail < 2 ^ k := by
    show maskC st.capacityFrames ((st.tail + r) % W) < 2 ^ k
    rw [htail']
    exact Nat.mod_lt _ hCpos
  have hb' : RingBounds k { st with
      tail := maskC st.capacityFrames ((st.tail + r) % W) } :=
    ⟨hC, hd, hh, ht2, hlen⟩
  have hsize' : ({ st with
      tail := maskC st.capacityFrames ((st.tail + r) % W) } : AudioOutput).size
      = st.size - r := by
    have h1 := size_eq hk ({ st with
      tail := maskC st.capacityFrames ((st.tail + r) % W) } : AudioOutput) hC
      (le_of_lt ht2)
    rw [h1]
    show (st.head + 2 ^ k - maskC st.capacityFrames ((st.tail + r) % W)) % 2 ^ k
      = st.size - r
    rw [htail']
    apply sub_mod_cancel hCpos (Nat.mod_lt _ hCpos) (by omega)
    rw [Nat.mod_add_mod]
    have h3 : st.tail + r + (st.size - r) = st.tail + st.size := by omega
    rw [h3, htas, Nat.mod_eq_of_lt hh]
  have hcongt : (st.tail + r) % 2 ^ k = maskC (2 ^ k) ((st.tail + r) % W) % 2 ^ k := by
    rw [maskC_two_pow, mod_W_mod hk, Nat.mod_mod_of_dvd _ dvd_rfl]
  have hq2 : readFrames st.buffer st.capacityFrames (st.tail + r) (st.size - r)
      = queueFrames { st with
          tail := maskC st.capacityFrames ((st.tail + r) % W) } := by
    show _ = readFrames st.buffer st.capacityFrames
      (maskC st.capacityFrames ((st.tail + r) % W))
      (({ st with
          tail := maskC st.capacityFrames ((st.tail + r) % W) } : AudioOutput).size)
    rw [hsize', hC]
    exact readFrames_congr (st.size - r) st.buffer (st.tail + r)
      (maskC (2 ^ k) ((st.tail + r) % W)) hcongt
  refine ⟨hb', ?_, hsize', rfl, rfl⟩
  show readFrames st.buffer st.capacityFrames st.tail st.size
    = st.consumedFrames n ++ queueFrames { st with
        tail := maskC st.capacityFrames ((st.tail + r) % W) }
  have hsz : st.size = r + (st.size - r) := by omega
  rw [hsz, readFrames_split, hq2]
  rfl

theorem readFrames_getD (n : Nat) : ∀ (buf : List Frame) (C t i : Nat), i < n →
    (readFrames buf C t n).getD i [] = buf.getD (maskC C (t + i)) [] := by
  induction n with
  | zero => intro buf C t i h; omega
  | succ a ih =>
    intro buf C t i h
    cases i with
    | zero =>
      show buf.getD (maskC C t) [] = buf.getD (maskC C (t + 0)) []
      rw [Nat.add_zero]
    | succ b =>
      show (readFrames buf C (t + 1) a).getD b [] = buf.getD (maskC C (t + (b + 1))) []
      rw [ih buf C (t + 1) b (by omega)]
      have harr : t + 1 + b = t + (b + 1) := by omega
      rw [harr]

theorem getD_take (l : List Frame) : ∀ (n j : Nat), j < n →
    (l.take n).getD j [] = l.getD j [] := by
  induction l with
  | nil =>
    intro n j _
    rw [List.take_nil]
  | cons a l ih =>
    intro n j h
    cases n with
    | zero => omega
    | succ m =>
      cases j with
      | zero => rfl
      | succ i =>
        show (l.take m).getD i [] = l.getD i []
        exact ih m i (by omega)

theorem getD_map_frames (g : Frame → Frame) (hg : g [] = []) :
    ∀ (l : List Frame) (f : Nat), (l.map g).getD f [] = g (l.getD f []) := by
  intro l
  induction l with
  | nil => intro f; exact hg.symm
  | cons a l ih =>
    intro f
    cases f with
    | zero => rfl
    | succ b => exact ih b

/-! ### Trace-level preservation and reachability -/

theorem stepOp_inv {k : Nat} (hk : k ≤ 64) (t : Trace) (op : RingOp)
    (hinv : TraceInv k t) : TraceInv k (stepOp t op) := by
  obtain ⟨hb, heq⟩ := hinv
  cases op with
  | write fs =>
    obtain ⟨hb', hq, _, _, _⟩ := write_step hk t.st fs fs.length hb (le_refl _)
    refine ⟨hb', ?_⟩
    show t.consumed ++ queueFrames (t.st.write fs fs.length).1
      = t.written ++ fs.take (t.st.write fs fs.length).2
    rw [hq, ← List.append_assoc, heq]
  | consume n =>
    obtain ⟨hb', hq, _, _, _⟩ := consume_step hk t.st n hb
    refine ⟨hb', ?_⟩
    show t.consumed ++ t.st.consumedFrames n ++ queueFrames (t.st.callback n).1
      = t.written
    rw [List.append_assoc, ← hq, heq]

theorem runOps_inv {k : Nat} (hk : k ≤ 64) (ops : List RingOp) :
    ∀ (t : Trace), TraceInv k t → TraceInv k (runOps t ops) := by
  induction ops with
  | nil => intro t h; exact h
  | cons op rest ih => intro t h; exact ih (stepOp t op) (stepOp_inv hk t op h)

theorem initial_bounds (k ch : Nat) : RingBounds k (initialRing (2 ^ k) ch) := by
  have hCpos : 0 < 2 ^ k := Nat.pos_pow_of_pos k (by omega)
  exact ⟨rfl, rfl, hCpos, hCpos, List.length_replicate _ _⟩

theorem initial_size (k ch : Nat) : (initialRing (2 ^ k) ch).size = 0 := by
  show maskC (2 ^ k) (szsub 0 0) = 0
  have h0 : szsub 0 0 = 0 := by
    unfold szsub
    simp
  rw [h0]
  unfold maskC
  exact Nat.zero_and _

theorem initial_inv (k ch : Nat) :
    TraceInv k { st := initialRing (2 ^ k) ch, written := [], consumed := [] } := by
  refine ⟨initial_bounds k ch, ?_⟩
  show [] ++ queueFrames (initialRing (2 ^ k) ch) = []
  unfold queueFrames
  rw [initial_size]
  rfl

/-! ### Player field preservation -/

theorem nextPowerOfTwo_pos (v : Nat) : 0 < nextPowerOfTwo v := by
  unfold nextPowerOfTwo
  split
  · omega
  · exact Nat.succ_pos _

theorem stop_fp (p : Player) :
    p.stop.finished = p.finished ∧ p.stop.paused = p.paused := by
  unfold Player.stop
  split <;> exact ⟨rfl, rfl⟩

theorem load_fp (p : Player) (o : Bool) (sr ch : Nat) (a b c : Bool) :
    (p.load o sr ch a b c).1.finished = p.finished ∧
    (p.load o sr ch a b c).1.paused = p.paused := by
  have hs := stop_fp p
  unfold Player.load
  split
  · exact hs
  · split <;> exact hs

theorem play_fp (p : Player) (s : Bool) :
    (p.play s).1.finished = p.finished ∧ (p.play s).1.paused = p.paused := by
  unfold Player.play
  split
  · exact ⟨rfl, rfl⟩
  · split
    · exact ⟨rfl, rfl⟩
    · split <;> exact ⟨rfl, rfl⟩

theorem decode_fp (p : Player) (bs : List (List Int)) (fuel : Nat) :
    (p.decodeThreadFunc bs fuel).finished = p.finished ∧
    (p.decodeThreadFunc bs fuel).paused = p.paused := by
  unfold Player.decodeThreadFunc
  split <;> exact ⟨rfl, rfl⟩

theorem playerStep_fp (p : Player) (op : PlayerOp) :
    (playerStep p op).finished = p.finished ∧ (playerStep p op).paused = p.paused := by
  cases op with
  | load o sr ch a b c => exact load_fp p o sr ch a b c
  | play s => exact play_fp p s
  | stop => exact stop_fp p
  | decodeRun bs fuel => exact decode_fp p bs fuel

theorem setVolume_one (st : AudioOutput) (v : ℚ) (hv : 1 ≤ v) :
    (st.setVolume v).volume = 1 := by
  unfold AudioOutput.setVolume
  show (if (if v < 0 then (0 : ℚ) else v) > 1 then (1 : ℚ)
        else (if v < 0 then (0 : ℚ) else v)) = 1
  rw [if_neg (by linarith : ¬ v < 0)]
  by_cases h : v > 1
  · rw [if_pos h]
  · rw [if_neg h]
    linarith

/-! ### Claim theorems -/

/-- C1: `AudioOutput::write` returns `min(count, free)` with
`free = (tail - head - 1) mod C`, modifies exactly the `framesWritten`
ring slots starting at `head`, never writes beyond the reported free
capacity, and on an 8-capacity buffer two successive 6-frame writes return
6 and then 1. -/
theorem c1_write_free_bound {k : Nat} (st : AudioOutput) (fs : List Frame) (count : Nat)
    (hk : k ≤ 64) (hb : RingBounds k st) (hn : count ≤ fs.length) :
    ((st.write fs count).2 = min count st.available ∧
     st.available = (st.tail + 2 * 2 ^ k - st.head - 1) % 2 ^ k ∧
     (st.write fs count).2 ≤ st.available ∧
     (∀ p : Nat,
        (∀ j, j < (st.write fs count).2 → maskC st.capacityFrames (st.head + j) ≠ p) →
        (st.write fs count).1.buffer.getD p [] = st.buffer.getD p []) ∧
     (∀ j, j < (st.write fs count).2 →
        (st.write fs count).1.buffer.getD (maskC st.capacityFrames (st.head + j)) []
          = fs.getD j [])) ∧
    (((initialRing 8 1).write (List.replicate 6 [(1:ℚ)/2]) 6).2 = 6 ∧
     (((initialRing 8 1).write (List.replicate 6 [(1:ℚ)/2]) 6).1.write
        (List.replicate 6 [(1:ℚ)/2]) 6).2 = 1) := by
  obtain ⟨hC, hd, hh, ht, hlen⟩ := hb
  have hCpos : 0 < 2 ^ k := Nat.pos_pow_of_pos k (by omega)
  have hret : (st.write fs count).2 = min count st.available := by
    rw [write_eq st fs count hd]
  set tw := min count st.available with htwdef
  have htw2 : tw ≤ count := Nat.min_le_left _ _
  have htwa : tw ≤ st.available := Nat.min_le_right _ _
  have havlt : st.available < 2 ^ k := by
    have := avail_lt st (by rw [hC]; exact hCpos)
    rw [hC] at this
    exact this
  have htklen : (fs.take tw).length = tw := by
    rw [List.length_take]
    omega
  refine ⟨⟨hret, avail_eq hk st hC (le_of_lt hh), ?_, ?_, ?_⟩, by decide, by decide⟩
  · rw [hret]
    exact Nat.min_le_right _ _
  · intro p hp
    rw [write_eq st fs count hd]
    show (writeFrames st.buffer st.capacityFrames st.head (fs.take tw)).getD p []
      = st.buffer.getD p []
    apply writeFrames_getD_miss
    intro j hj
    apply hp
    rw [hret]
    omega
  · intro j hj
    rw [hret] at hj
    rw [write_eq st fs count hd]
    show (writeFrames st.buffer st.capacityFrames st.head (fs.take tw)).getD
        (maskC st.capacityFrames (st.head + j)) [] = fs.getD j []
    have hread := readFrames_writeFrames (fs.take tw) st.buffer k st.head hlen
      (by rw [htklen]; omega)
    rw [htklen] at hread
    have h5 := readFrames_getD tw
      (writeFrames st.buffer (2 ^ k) st.head (fs.take tw)) (2 ^ k) st.head j hj
    rw [hread] at h5
    rw [hC, ← h5, getD_take fs tw j hj]

/-- C1 witness: the theorem applied to the empty 8-capacity single-channel
ring and a 6-frame batch. -/
theorem c1_witness :
    (3 ≤ 64 ∧ RingBounds 3 (initialRing 8 1) ∧
      6 ≤ (List.replicate 6 [(1:ℚ)/2]).length) ∧
    ((initialRing 8 1).write (List.replicate 6 [(1:ℚ)/2]) 6).2
      = min 6 (initialRing 8 1).available :=
  ⟨⟨by omega, ⟨by decide, rfl, by decide, by decide, by decide⟩, by decide⟩,
    (c1_write_free_bound (k := 3) (initialRing 8 1) (List.replicate 6 [(1:ℚ)/2]) 6 (by omega)
      ⟨by decide, rfl, by decide, by decide, by decide⟩ (by decide)).1.1⟩

/-- C2: for every state reached from a fresh ring by any sequence of writes
and callback consumptions, `size() + available() = capacity - 1`. -/
theorem c2_capacity_invariant (k ch : Nat) (ops : List RingOp) (hk : k ≤ 64) :
    (runOps { st := initialRing (2 ^ k) ch, written := [], consumed := [] } ops).st.size
      + (runOps { st := initialRing (2 ^ k) ch, written := [], consumed := [] } ops).st.available
      = 2 ^ k - 1 := by
  obtain ⟨⟨hC, hd, hh, ht, hlen⟩, _⟩ := runOps_inv hk ops _ (initial_inv k ch)
  exact size_add_avail hk _ hC hh ht

/-- C2 witness: the invariant after one write and one consume on a
capacity-8 ring. -/
theorem c2_witness :
    3 ≤ 64 ∧
    (runOps { st := initialRing (2 ^ 3) 1, written := [], consumed := [] }
        [RingOp.write [[1], [2]], RingOp.consume 1]).st.size
      + (runOps { st := initialRing (2 ^ 3) 1, written := [], consumed := [] }
        [RingOp.write [[1], [2]], RingOp.consume 1]).st.available
      = 2 ^ 3 - 1 :=
  ⟨by omega, c2_capacity_invariant 3 1 [RingOp.write [[1], [2]], RingOp.consume 1] (by omega)⟩

/-- C3: FIFO delivery — after any interleaving of writes and callback
consumptions, the concatenation of the consumed (pre-volume) frames is a
prefix of the concatenation of the successfully written frames. -/
theorem c3_fifo_order (k ch : Nat) (ops : List RingOp) (hk : k ≤ 64) :
    ∃ rest,
      (runOps { st := initialRing (2 ^ k) ch, written := [], consumed := [] } ops).consumed
        ++ rest
      = (runOps { st := initialRing (2 ^ k) ch, written := [], consumed := [] } ops).written := by
  obtain ⟨_, heq⟩ := runOps_inv hk ops _ (initial_inv k ch)
  exact ⟨_, heq⟩

/-- C3 witness: the FIFO property on a concrete interleaving. -/
theorem c3_witness :
    3 ≤ 64 ∧
    ∃ rest,
      (runOps { st := initialRing (2 ^ 3) 1, written := [], consumed := [] }
          [RingOp.write [[1], [2]], RingOp.consume 1, RingOp.write [[3]]]).consumed ++ rest
      = (runOps { st := initialRing (2 ^ 3) 1, written := [], consumed := [] }
          [RingOp.write [[1], [2]], RingOp.consume 1, RingOp.write [[3]]]).written :=
  ⟨by omega, c3_fifo_order 3 1
    [RingOp.write [[1], [2]], RingOp.consume 1, RingOp.write [[3]]] (by omega)⟩

/-- C4 counterexample: in the spec scenario (capacity 8, stored frames
[1,2,3,4,5], consume 3) the callback does NOT return [1,2,3]: the
per-sample clamp to [-1,1] (with volume 1.0) turns the out-of-range stored
values into [1,1,1]. -/
theorem c4_counterexample :
    (st5.callback 3).2 = [[1], [1], [1]] ∧ (st5.callback 3).2 ≠ [[1], [2], [3]] := by
  have h1 : (st5.callback 3).2 = [[1], [1], [1]] := by
    have h2 : st5.consumedFrames 3 = [[1], [2], [3]] := by decide
    have h3 : st5.framesToRead 3 = 3 := by decide
    have h4 : st5.volume = 1 := by decide
    show (st5.consumedFrames 3).map
        (fun (fr : Frame) => fr.map (fun s => clampSample (s * st5.volume)))
      ++ List.replicate (3 - st5.framesToRead 3) (List.replicate st5.channels 0)
      = [[1], [1], [1]]
    rw [h2, h3, h4]
    norm_num [clampSample]
  refine ⟨h1, ?_⟩
  rw [h1]
  norm_num

/-- C4 (amended): every callback invocation fully populates the output —
the frames actually read come first, each scaled by the volume and clamped
per sample, and the shortfall is exact-zero silence; with nothing occupied
the whole output is silence. In the spec scenario the outputs are the
clamped values: [1,1,1], then [1,1] followed by eight zero frames. -/
theorem c4_silence_padding (st : AudioOutput) (n : Nat) :
    ((st.callback n).2.length = n ∧
     (st.callback n).2
        = (st.consumedFrames n).map (fun fr => fr.map (fun s => clampSample (s * st.volume)))
          ++ List.replicate (n - st.framesToRead n) (List.replicate st.channels 0) ∧
     (st.size = 0 → (st.callback n).2 = List.replicate n (List.replicate st.channels 0))) ∧
    ((st5.callback 3).2 = [[1], [1], [1]] ∧
     ((st5.callback 3).1.callback 10).2 = [[1], [1]] ++ List.replicate 8 [(0 : ℚ)]) := by
  refine ⟨⟨?_, rfl, ?_⟩, ?_, ?_⟩
  · show ((st.consumedFrames n).map
        (fun (fr : Frame) => fr.map (fun s => clampSample (s * st.volume)))
      ++ List.replicate (n - st.framesToRead n) (List.replicate st.channels 0)).length = n
    rw [List.length_append, List.length_map, List.length_replicate]
    show (readFrames st.buffer st.capacityFrames st.tail (st.framesToRead n)).length
      + (n - st.framesToRead n) = n
    rw [readFrames_length]
    have : st.framesToRead n ≤ n := Nat.min_le_left _ _
    omega
  · intro h0
    have hr : st.framesToRead n = 0 := by
      unfold AudioOutput.framesToRead
      rw [h0]
      exact Nat.min_zero n
    show (st.consumedFrames n).map
        (fun (fr : Frame) => fr.map (fun s => clampSample (s * st.volume)))
      ++ List.replicate (n - st.framesToRead n) (List.replicate st.channels 0)
      = List.replicate n (List.replicate st.channels 0)
    unfold AudioOutput.consumedFrames
    rw [hr]
    show ([] : List Frame).map _ ++ List.replicate (n - 0) (List.replicate st.channels 0)
      = List.replicate n (List.replicate st.channels 0)
    simp
  · have h2 : st5.consumedFrames 3 = [[1], [2], [3]] := by decide
    have h3 : st5.framesToRead 3 = 3 := by decide
    have h4 : st5.volume = 1 := by decide
    show (st5.consumedFrames 3).map
        (fun (fr : Frame) => fr.map (fun s => clampSample (s * st5.volume)))
      ++ List.replicate (3 - st5.framesToRead 3) (List.replicate st5.channels 0)
      = [[1], [1], [1]]
    rw [h2, h3, h4]
    norm_num [clampSample]
  · have h2 : (st5.callback 3).1.consumedFrames 10 = [[4], [5]] := by decide
    have h3 : (st5.callback 3).1.framesToRead 10 = 2 := by decide
    have h4 : (st5.callback 3).1.volume = 1 := by decide
    have h5 : (st5.callback 3).1.channels = 1 := by decide
    show ((st5.callback 3).1.consumedFrames 10).map
        (fun (fr : Frame) => fr.map (fun s => clampSample (s * (st5.callback 3).1.volume)))
      ++ List.replicate (10 - (st5.callback 3).1.framesToRead 10)
          (List.replicate (st5.callback 3).1.channels 0)
      = [[1], [1]] ++ List.replicate 8 [(0 : ℚ)]
    rw [h2, h3, h4, h5]
    norm_num [clampSample, List.replicate]

/-- C4 witness: consuming from an empty ring yields pure silence. -/
theorem c4_witness :
    (initialRing 8 1).size = 0 ∧
    ((initialRing 8 1).callback 4).2 = List.replicate 4 (List.replicate 1 0) :=
  ⟨by decide, (c4_silence_padding (initialRing 8 1) 4).1.2.2 (by decide)⟩

/-- C5: each consumed sample equals the stored sample times the current
volume, clamped to [-1,1]; `setVolume` clamps its argument into [0,1], so
any requested volume at or above 1.0 stores exactly 1.0 and a full-scale
sample comes out exactly as 1.0 or -1.0. -/
theorem c5_volume_clamp :
    (∀ (st : AudioOutput) (n f : Nat), f < st.framesToRead n →
        (st.callback n).2.getD f []
          = (st.buffer.getD (maskC st.capacityFrames (st.tail + f)) []).map
              (fun s => clampSample (s * st.volume))) ∧
    (∀ (st : AudioOutput) (v : ℚ), 1 ≤ v → (st.setVolume v).volume = 1) ∧
    (∀ (st : AudioOutput) (v x : ℚ), 1 ≤ v → (x = 1 ∨ x = -1) →
        clampSample (x * (st.setVolume v).volume) = x) := by
  refine ⟨?_, ?_, ?_⟩
  · intro st n f hf
    show ((st.consumedFrames n).map
        (fun (fr : Frame) => fr.map (fun s => clampSample (s * st.volume)))
      ++ List.replicate (n - st.framesToRead n) (List.replicate st.channels 0)).getD f []
      = (st.buffer.getD (maskC st.capacityFrames (st.tail + f)) []).map
          (fun s => clampSample (s * st.volume))
    rw [List.getD_append _ _ _ _ (by
      rw [List.length_map]
      show f < (readFrames st.buffer st.capacityFrames st.tail (st.framesToRead n)).length
      rw [readFrames_length]
      exact hf)]
    rw [getD_map_frames _ rfl]
    show ((readFrames st.buffer st.capacityFrames st.tail (st.framesToRead n)).getD f []).map
        (fun s => clampSample (s * st.volume))
      = (st.buffer.getD (maskC st.capacityFrames (st.tail + f)) []).map
          (fun s => clampSample (s * st.volume))
    rw [readFrames_getD (st.framesToRead n) st.buffer st.capacityFrames st.tail f hf]
  · intro st v hv
    exact setVolume_one st v hv
  · intro st v x hv hx
    rw [setVolume_one st v hv, mul_one]
    rcases hx with h | h <;> rw [h] <;> norm_num [clampSample]

/-- C5 witness: the clamp at a requested volume of 2 and a full-scale
sample. -/
theorem c5_witness :
    ((1 : ℚ) ≤ 2 ∧ ((1 : ℚ) = 1 ∨ (1 : ℚ) = -1)) ∧
    clampSample (1 * ((initialRing 8 1).setVolume 2).volume) = 1 :=
  ⟨⟨by norm_num, Or.inl rfl⟩,
    c5_volume_clamp.2.2 (initialRing 8 1) 2 1 (by norm_num) (Or.inl rfl)⟩

/-- C6 counterexample: calling `play` on an already-playing session does
NOT fail — it returns success (`true`) and leaves the state unchanged. -/
theorem c6_counterexample :
    (pPlaying.play true).2 = true ∧ (pPlaying.play true).1 = pPlaying := by
  refine ⟨?_, ?_⟩ <;> decide

/-- C6 (amended): calling `play` while already Playing logs a warning,
returns success (`true`) and is a complete no-op: no state change, no
second producer thread, no device restart. -/
theorem c6_already_playing_noop (p : Player) (s : Bool) (hd : p.decoder = true)
    (ha : p.audioOut.isSome = true) (hp : p.playing = true) :
    p.play s = (p, true) := by
  obtain ⟨ao, hao⟩ := Option.isSome_iff_exists.mp ha
  unfold Player.play
  rw [hd, hao, hp]
  simp

/-- C6 witness: the no-op at the concrete playing session. -/
theorem c6_witness :
    (pPlaying.decoder = true ∧ pPlaying.audioOut.isSome = true ∧
      pPlaying.playing = true) ∧
    pPlaying.play true = (pPlaying, true) :=
  ⟨⟨rfl, rfl, rfl⟩, c6_already_playing_noop pPlaying true rfl rfl rfl⟩

/-- C7 counterexample: loading while Playing with a decoder-open failure
returns failure but RETAINS the previous audio output (the implicit
`stop()` from the Playing state never resets `audioOut_`), so the session
is not equivalent to the pre-load idle state. -/
theorem c7_counterexample :
    (pPlaying.load false 44100 2 true true true).2 = false ∧
    (pPlaying.load false 44100 2 true true true).1.audioOut ≠ none := by
  refine ⟨?_, ?_⟩ <;> decide

/-- C7 (amended): when `load` starts from a non-playing session, both
failure modes (decoder open failure, audio-output init failure) return
failure and leave the session idle with decoder and audio output released;
an init failure releases both regardless of the previous state. Only a
decoder-open failure on a load issued while Playing retains the stale
audio output. -/
theorem c7_load_failure_released :
    (∀ (p : Player) (o : Bool) (sr ch : Nat) (a b c : Bool),
      p.playing = false →
      (o = false ∨ AudioOutput.init sr ch 512 a b c = none) →
      (p.load o sr ch a b c).2 = false ∧
      (p.load o sr ch a b c).1.decoder = false ∧
      (p.load o sr ch a b c).1.audioOut = none) ∧
    (∀ (p : Player) (o : Bool) (sr ch : Nat) (a b c : Bool),
      AudioOutput.init sr ch 512 a b c = none → o = true →
      (p.load o sr ch a b c).2 = false ∧
      (p.load o sr ch a b c).1.decoder = false ∧
      (p.load o sr ch a b c).1.audioOut = none) := by
  constructor
  · intro p o sr ch a b c hp hfail
    have hs : p.stop = { p with decoder := false, audioOut := none } := by
      unfold Player.stop
      rw [hp, if_pos rfl]
    rcases hfail with h | h
    · subst h
      have hload : p.load false sr ch a b c = ({ p.stop with decoder := false }, false) := by
        unfold Player.load
        rw [if_pos rfl]
      rw [hload, hs]
      exact ⟨rfl, rfl, rfl⟩
    · by_cases ho : o = false
      · subst ho
        have hload : p.load false sr ch a b c
            = ({ p.stop with decoder := false }, false) := by
          unfold Player.load
          rw [if_pos rfl]
        rw [hload, hs]
        exact ⟨rfl, rfl, rfl⟩
      · have ho' : o = true := by
          cases o
          · exact absurd rfl ho
          · rfl
        subst ho'
        have hload : p.load true sr ch a b c
            = ({ p.stop with decoder := false, audioOut := none }, false) := by
          unfold Player.load
          rw [if_neg (by simp), h]
        rw [hload]
        exact ⟨rfl, rfl, rfl⟩
  · intro p o sr ch a b c h ho
    subst ho
    have hload : p.load true sr ch a b c
        = ({ p.stop with decoder := false, audioOut := none }, false) := by
      unfold Player.load
      rw [if_neg (by simp), h]
    rw [hload]
    exact ⟨rfl, rfl, rfl⟩

/-- C7 witness: a decoder-open failure on an idle session leaves it idle. -/
theorem c7_witness :
    (Player.mk0.playing = false ∧
      (false = false ∨ AudioOutput.init 44100 2 512 true true true = none)) ∧
    ((Player.mk0.load false 44100 2 true true true).2 = false ∧
     (Player.mk0.load false 44100 2 true true true).1.decoder = false ∧
     (Player.mk0.load false 44100 2 true true true).1.audioOut = none) :=
  ⟨⟨rfl, Or.inl rfl⟩,
    c7_load_failure_released.1 Player.mk0 false 44100 2 true true true rfl (Or.inl rfl)⟩

/-- C8: with PortAudio initialized but no default output device, `init`
enters dummy (null-device) mode and succeeds; in dummy mode `write`
accepts and discards: it returns `frameCount` and leaves the state —
`head_`, `tail_` and the ring storage — completely unchanged. -/
theorem c8_dummy_write :
    (∀ (sr ch fpb : Nat) (sOk : Bool),
      (AudioOutput.init sr ch fpb true false sOk).map AudioOutput.dummyMode = some true) ∧
    (∀ (st : AudioOutput) (fs : List Frame) (n : Nat),
      st.dummyMode = true → st.write fs n = (st, n)) := by
  constructor
  · intro sr ch fpb sOk
    rfl
  · intro st fs n h
    unfold AudioOutput.write
    rw [h, if_pos rfl]

/-- C8 witness: a dummy-mode write of 7 frames is accepted verbatim. -/
theorem c8_witness :
    dummyRing.dummyMode = true ∧ dummyRing.write [[1]] 7 = (dummyRing, 7) :=
  ⟨rfl, c8_dummy_write.2 dummyRing [[1]] 7 rfl⟩

/-- C9: `init` stores 0 into both indices; every `write` republishes
`head_` masked by `capacityFrames_ - 1` and leaves `tail_` alone; every
callback republishes `tail_` masked and leaves `head_` alone; therefore
both stored indices stay strictly below the capacity, and the wrap-around
subtractions `available()` and `size()` always land in
[0, capacityFrames_ - 1]. -/
theorem c9_indices_reduced :
    (∀ (sr ch fpb : Nat) (pa dev sOk : Bool) (st : AudioOutput),
      AudioOutput.init sr ch fpb pa dev sOk = some st →
      st.head = 0 ∧ st.tail = 0 ∧ st.head < st.capacityFrames ∧
        st.tail < st.capacityFrames) ∧
    (∀ (st : AudioOutput) (fs : List Frame) (n : Nat), st.dummyMode = false →
      0 < st.capacityFrames →
      (st.write fs n).1.head < st.capacityFrames ∧ (st.write fs n).1.tail = st.tail) ∧
    (∀ (st : AudioOutput) (n : Nat), 0 < st.capacityFrames →
      (st.callback n).1.tail < st.capacityFrames ∧ (st.callback n).1.head = st.head) ∧
    (∀ st : AudioOutput,
      st.size ≤ st.capacityFrames - 1 ∧ st.available ≤ st.capacityFrames - 1) := by
  refine ⟨?_, ?_, ?_, ?_⟩
  · intro sr ch fpb pa dev sOk st hinit
    have hpos := nextPowerOfTwo_pos (sr * 2)
    unfold AudioOutput.init at hinit
    split at hinit
    · exact Option.noConfusion hinit
    · split at hinit
      · injection hinit with h
        subst h
        exact ⟨rfl, rfl, hpos, hpos⟩
      · split at hinit
        · exact Option.noConfusion hinit
        · injection hinit with h
          subst h
          exact ⟨rfl, rfl, hpos, hpos⟩
  · intro st fs n hd hC
    rw [write_eq st fs n hd]
    exact ⟨maskC_lt hC _, rfl⟩
  · intro st n hC
    rw [callback_fst]
    exact ⟨maskC_lt hC _, rfl⟩
  · intro st
    exact ⟨maskC_le _ _, maskC_le _ _⟩

/-- C9 witness: the masked head store after a one-frame write on the
8-capacity ring. -/
theorem c9_witness :
    ((initialRing 8 1).dummyMode = false ∧ 0 < (initialRing 8 1).capacityFrames) ∧
    (((initialRing 8 1).write [[1]] 1).1.head < (initialRing 8 1).capacityFrames ∧
     ((initialRing 8 1).write [[1]] 1).1.tail = (initialRing 8 1).tail) :=
  ⟨⟨rfl, by decide⟩, c9_indices_reduced.2.1 (initialRing 8 1) [[1]] 1 rfl (by decide)⟩

/-- C10: no `Player` operation — load, play, stop, nor the decoder thread
(including its natural end-of-stream exit) — ever writes `finished_` (or
`paused_`); from the constructor (which leaves both uninitialized) they
stay unwritten forever, so `isFinished()` never transitions to true after
playback completes. -/
theorem c10_finished_never_set :
    (∀ (p : Player) (op : PlayerOp),
      (playerStep p op).finished = p.finished ∧ (playerStep p op).paused = p.paused) ∧
    (∀ ops : List PlayerOp,
      (runPlayer Player.mk0 ops).finished = none ∧
      (runPlayer Player.mk0 ops).paused = none) := by
  refine ⟨playerStep_fp, ?_⟩
  have hgen : ∀ (ops : List PlayerOp) (p : Player), p.finished = none → p.paused = none →
      (runPlayer p ops).finished = none ∧ (runPlayer p ops).paused = none := by
    intro ops
    induction ops with
    | nil => intro p hf hp; exact ⟨hf, hp⟩
    | cons op rest ih =>
      intro p hf hp
      exact ih (playerStep p op) ((playerStep_fp p op).1.trans hf)
        ((playerStep_fp p op).2.trans hp)
  intro ops
  exact hgen ops Player.mk0 rfl rfl

end MusicPlayer
